import Mathlib

/-!
Shallow embedding of the todo store of `src/cli.rs` (struct `Cli` and its
methods) and proofs of the specification's claims about it.

Modelling conventions:
* `Uuid` is modelled as `Nat` (the 128-bit identifier's value; only equality
  is used by the store).
* `DateTime<Utc>` timestamps are modelled as `Nat` (unix seconds, the
  granularity the store persists).  Each store operation receives a single
  `now : Nat` standing for the `Utc::now()` calls made during that operation.
* `HashMap<Uuid, TodoData>` is modelled as an association list
  `List (Uuid × TodoData)` with `hmGet` / `hmInsert` / `hmRemove` mirroring
  `HashMap::get` / `insert` / `remove`; the real map's keys are unique, which
  appears as the `hmNodupKeys` hypothesis where a proof needs it.  The list
  order stands for the map's (arbitrary but fixed) iteration order.
* `Uuid::parse_str` and `str::parse::<usize>` are library code, not code of
  this repository; they are parameters `up : String → Option Uuid` and
  `np : String → Option Nat` of the functions that use them.
* `println!` / `eprintln!` output is collected as a `List String` of messages;
  file and git side effects of `sync` are recorded in `SyncResult`.
* Rust's `sort_by` is a stable sort; it is embedded as `List.insertionSort`
  (also stable) with the same comparator.
* `serde_json` is library code too; the store file is modelled as an abstract
  symbol sequence (`FileBytes`) and the file-level `save_todos_file` /
  `load_todos_file` take the encoder/decoder as parameters `enc` / `dec`.
  They do mirror the source's `OpenOptions` usage: `save_todos` opens with
  create/read/write but no truncate, so a write shorter than the previous
  contents keeps the previous contents' stale trailing bytes.
-/

namespace Toto

abbrev Uuid := Nat

inductive TodoStatus where
  | Pending
  | InProgress
  | Completed
  | Deleted
deriving DecidableEq, Repr

structure TodoData where
  title : String
  description : Option String
  priority : Nat
  status : TodoStatus
  created_at : Nat
  in_progress_at : Option Nat
  completed_at : Option Nat
  deleted_at : Option Nat
deriving DecidableEq, Repr

structure Todo where
  id : Uuid
  data : TodoData
deriving DecidableEq, Repr

/-- The `todo_map : HashMap<Uuid, TodoData>` field of `Cli`, as an
association list in iteration order. -/
abbrev TodoMap := List (Uuid × TodoData)

/-- Model of `HashMap::get`: the value stored at key `k`, if any. -/
def hmGet : TodoMap → Uuid → Option TodoData
  | [], _ => none
  | (k', v) :: rest, k => if k = k' then some v else hmGet rest k

/-- Model of `HashMap::insert`: replace the value at `k` if present, else add the
entry. -/
def hmInsert : TodoMap → Uuid → TodoData → TodoMap
  | [], k, v => [(k, v)]
  | (k', v') :: rest, k, v =>
      if k = k' then (k, v) :: rest else (k', v') :: hmInsert rest k v

/-- Model of `HashMap::remove`: drop the entry at `k`, if any. -/
def hmRemove : TodoMap → Uuid → TodoMap
  | [], _ => []
  | (k', v') :: rest, k => if k = k' then rest else (k', v') :: hmRemove rest k

/-- The real `HashMap` never holds two entries with the same key. -/
def hmNodupKeys (m : TodoMap) : Prop := (m.map Prod.fst).Nodup

/-- The `Vec<Todo>` built from the map by `ordered_todos` / `save_todos`
before sorting or serialising: each `(id, data)` pair as a `Todo`. -/
def todoList (m : TodoMap) : List Todo :=
  m.map fun p => { id := p.1, data := p.2 }

/-- The comparator of `ordered_todos` (`cli.rs:583-592`) as a `≤` relation:
`a` sorts no later than `b` iff `a.priority < b.priority`, or the priorities
are equal and `a.created_at ≤ b.created_at`. -/
def todoLE (a b : Todo) : Prop :=
  a.data.priority < b.data.priority ∨
    (a.data.priority = b.data.priority ∧ a.data.created_at ≤ b.data.created_at)

instance : DecidableRel todoLE := fun a b => by
  unfold todoLE; infer_instance

instance : IsTotal Todo todoLE where
  total a b := by
    unfold todoLE
    rcases Nat.lt_trichotomy a.data.priority b.data.priority with h | h | h
    · exact Or.inl (Or.inl h)
    · rcases Nat.le_total a.data.created_at b.data.created_at with h' | h'
      · exact Or.inl (Or.inr ⟨h, h'⟩)
      · exact Or.inr (Or.inr ⟨h.symm, h'⟩)
    · exact Or.inr (Or.inl h)

instance : IsTrans Todo todoLE where
  trans a b c hab hbc := by
    rcases hab with h1 | ⟨h1, h1'⟩ <;> rcases hbc with h2 | ⟨h2, h2'⟩
    · exact Or.inl (h1.trans h2)
    · exact Or.inl (h2 ▸ h1)
    · exact Or.inl (h1 ▸ h2)
    · exact Or.inr ⟨h1.trans h2, h1'.trans h2'⟩

/-- Embedding of `ordered_todos` (`cli.rs:573-595`): collect the map into a vector and
stably sort by priority, then creation time. -/
def ordered_todos (m : TodoMap) : List Todo :=
  List.insertionSort todoLE (todoList m)

/-- Embedding of `parse_todo_id` (`cli.rs:560-571`): try the input as a zero-based position
in the derived ordering (`np`, modelling `str::parse::<usize>`); if it is not a
number in range, fall back to parsing it as a full identifier (`up`, modelling
`Uuid::parse_str`).  `none` models the `Err` result. -/
def parse_todo_id (np : String → Option Nat) (up : String → Option Uuid)
    (m : TodoMap) (s : String) : Option Uuid :=
  let todos := ordered_todos m
  match np s with
  | some n =>
      if h : n < todos.length then some (todos.get ⟨n, h⟩).id else up s
  | none => up s

/-- Embedding of `add_todo` (`cli.rs:339-365`).  `id` stands for the fresh `Uuid::new_v4()`. -/
def add_todo (m : TodoMap) (id : Uuid) (title : String)
    (description : Option String) (priority : Nat) (in_progress : Bool)
    (now : Nat) : TodoMap :=
  hmInsert m id
    { title := title
      description := description
      priority := priority
      in_progress_at := if in_progress then some now else none
      created_at := now
      completed_at := none
      deleted_at := none
      status := if in_progress then TodoStatus.InProgress else TodoStatus.Pending }

/-- Embedding of `update_todo` (`cli.rs:366-417`).  Returns the new map and the printed
messages.  A failed `parse_todo_id` is swallowed by the `if let Ok` with no
output.  Note the source's deleted branch (`cli.rs:404-411`) guards on
`deleted_at` but assigns `completed_at`, mirrored here exactly. -/
def update_todo (np : String → Option Nat) (up : String → Option Uuid)
    (m : TodoMap) (id : String)
    (title : Option String) (description : Option String)
    (priority : Option Nat) (in_progress : Option Bool)
    (completed : Option Bool) (deleted : Option Bool) (now : Nat) :
    TodoMap × List String :=
  match parse_todo_id np up m id with
  | none => (m, [])
  | some todo_id =>
    match hmGet m todo_id with
    | none => (m, ["Todo not found"])
    | some todo =>
      let todo := match title with
        | some t => { todo with title := t }
        | none => todo
      let todo := match description with
        | some d => { todo with description := some d }
        | none => todo
      let todo := match priority with
        | some p => { todo with priority := p }
        | none => todo
      let todo := match in_progress with
        | some b =>
            if b then
              let todo := if todo.in_progress_at.isNone then
                  { todo with in_progress_at := some now } else todo
              { todo with status := TodoStatus.InProgress }
            else todo
        | none => todo
      let todo := match completed with
        | some b =>
            if b then
              let todo := if todo.completed_at.isNone then
                  { todo with completed_at := some now } else todo
              { todo with status := TodoStatus.Completed }
            else todo
        | none => todo
      let todo := match deleted with
        | some b =>
            if b then
              let todo := if todo.deleted_at.isNone then
                  { todo with completed_at := some now } else todo
              { todo with status := TodoStatus.Deleted }
            else todo
        | none => todo
      (hmInsert m todo_id todo, [])

/-- Embedding of `start_todo` (`cli.rs:419-431`). -/
def start_todo (np : String → Option Nat) (up : String → Option Uuid)
    (m : TodoMap) (id : String)
    (now : Nat) : TodoMap × List String :=
  match parse_todo_id np up m id with
  | none => (m, [])
  | some todo_id =>
    match hmGet m todo_id with
    | none => (m, ["Todo not found"])
    | some todo =>
      let todo := if todo.in_progress_at.isNone then
          { todo with in_progress_at := some now } else todo
      (hmInsert m todo_id { todo with status := TodoStatus.InProgress }, [])

/-- Embedding of `complete_todo` (`cli.rs:432-446`). -/
def complete_todo (np : String → Option Nat) (up : String → Option Uuid)
    (m : TodoMap) (id : String)
    (now : Nat) : TodoMap × List String :=
  match parse_todo_id np up m id with
  | none => (m, [])
  | some todo_id =>
    match hmGet m todo_id with
    | none => (m, ["Todo not found"])
    | some todo =>
      if todo.completed_at.isNone then
        (hmInsert m todo_id
          { todo with completed_at := some now, status := TodoStatus.Completed },
         [])
      else (m, ["Todo is already completed"])

/-- Embedding of `delete_todo` (`cli.rs:448-462`). -/
def delete_todo (np : String → Option Nat) (up : String → Option Uuid)
    (m : TodoMap) (id : String)
    (now : Nat) : TodoMap × List String :=
  match parse_todo_id np up m id with
  | none => (m, [])
  | some todo_id =>
    match hmGet m todo_id with
    | none => (m, ["Todo not found"])
    | some todo =>
      if todo.deleted_at.isNone then
        (hmInsert m todo_id
          { todo with deleted_at := some now, status := TodoStatus.Deleted },
         [])
      else (m, ["Todo is already deleted"])

/-- Result of `sync` (`cli.rs:473-558`): the shrunk map, the archive batch,
the printed messages, and whether the archive file was read/written (the
early return on an empty batch happens before any file operation). -/
structure SyncResult where
  map : TodoMap
  archived : List Todo
  msgs : List String
  archiveWritten : Bool
deriving DecidableEq, Repr

/-- The archival predicate of `sync` (`cli.rs:478`). -/
def finished (p : Uuid × TodoData) : Bool :=
  p.2.completed_at.isSome || p.2.deleted_at.isSome

/-- The body of the archival loop of `sync` (`cli.rs:484-491`): remove the
key's entry (if still present) and append it to the batch. -/
def archiveStep (acc : TodoMap × List Todo) (key : Uuid) :
    TodoMap × List Todo :=
  match hmGet acc.1 key with
  | some todo_data =>
      (hmRemove acc.1 key, acc.2 ++ [{ id := key, data := todo_data }])
  | none => acc

/-- Embedding of `sync` (`cli.rs:473-558`): collect the keys whose data has `completed_at`
or `deleted_at` set, remove each from the map into the archive batch, and
return early with a message when the batch is empty. -/
def sync (m : TodoMap) : SyncResult :=
  let keys_to_archive : List Uuid := (m.filter finished).map Prod.fst
  let step := keys_to_archive.foldl archiveStep (m, [])
  if step.2.isEmpty then
    { map := step.1
      archived := []
      msgs := ["No completed or deleted todos to archive."]
      archiveWritten := false }
  else
    { map := step.1
      archived := step.2
      msgs := []
      archiveWritten := true }

/-- Record level of `save_todos` (`cli.rs:326-333`): the `Vec<Todo>` built
from the map, in iteration order, handed to the serialiser. -/
def save_todos (m : TodoMap) : List Todo := todoList m

/-- Record level of `load_todos` (`cli.rs:307-309`): insert every
deserialised record into the (empty at startup) map. -/
def load_todos (todos : List Todo) : TodoMap :=
  todos.foldl (fun m t => hmInsert m t.id t.data) []

/-- Model of the bytes of a store file as a sequence of abstract symbols:
`some t` stands for the bytes of one serialised record, `none` for the other
bytes of the JSON shape (such as the closing of the array).  The concrete
byte strings are produced by `serde_json`, which is library code, so the
file-level functions below take the encoder/decoder as parameters. -/
abbrev FileBytes := List (Option Todo)

/-- File level of `save_todos` (`cli.rs:313-337`): the record list is
serialised by `enc` (`serde_json::to_writer_pretty`) and written from
offset 0.  The `OpenOptions` (`cli.rs:317-322`) set create/read/write but
neither truncate nor append, so any previous contents longer than the new
serialisation keep their stale trailing bytes. -/
def save_todos_file (enc : List Todo → FileBytes) (old : FileBytes)
    (m : TodoMap) : FileBytes :=
  enc (save_todos m) ++ old.drop (enc (save_todos m)).length

/-- File level of `load_todos` (`cli.rs:285-311`): an empty file leaves the
startup map empty; otherwise the entire contents must deserialise
(`serde_json::from_reader`, modelled by `dec`) into a record list, which is
loaded into the map.  `none` models the fatal "Failed to deserialize todo
list" error (`cli.rs:305`). -/
def load_todos_file (dec : FileBytes → Option (List Todo))
    (contents : FileBytes) : Option TodoMap :=
  if contents.isEmpty then some []
  else
    match dec contents with
    | some todos => some (load_todos todos)
    | none => none

/-- Two todos occupy the same slot of the derived ordering: same identifier
and same sort key (priority, creation time).  Operations that only touch the
other fields replace a todo by a `sameKey`-related one, which leaves the
derived ordering's shape and reference resolution intact. -/
def sameKey (a b : Todo) : Prop :=
  a.id = b.id ∧ a.data.priority = b.data.priority ∧
    a.data.created_at = b.data.created_at

/-- A default record, used only as the `Option.getD` fallback in statements
about values that are proved to be present. -/
def dummyData : TodoData :=
  { title := ""
    description := none
    priority := 0
    status := TodoStatus.Pending
    created_at := 0
    in_progress_at := none
    completed_at := none
    deleted_at := none }

/-! ### Concrete fixtures for witnesses and counterexamples -/

/-- Todo `A` of the spec's ordering example: priority 1, created first. -/
def tA : Todo :=
  { id := 10
    data := { title := "A", description := none, priority := 1,
              status := TodoStatus.Pending, created_at := 0,
              in_progress_at := none, completed_at := none, deleted_at := none } }

/-- Todo `B` of the spec's ordering example: priority 1, created after `A`. -/
def tB : Todo :=
  { id := 11
    data := { title := "B", description := none, priority := 1,
              status := TodoStatus.Pending, created_at := 5,
              in_progress_at := none, completed_at := none, deleted_at := none } }

/-- Todo `C` of the spec's ordering example: priority 3. -/
def tC : Todo :=
  { id := 12
    data := { title := "C", description := none, priority := 3,
              status := TodoStatus.Pending, created_at := 2,
              in_progress_at := none, completed_at := none, deleted_at := none } }

/-- A collection holding `A`, `B`, `C` in scrambled iteration order. -/
def mABC : TodoMap := [(tC.id, tC.data), (tB.id, tB.data), (tA.id, tA.data)]

/-- A completed todo (its `completed_at` is already set). -/
def tD : TodoData :=
  { title := "D", description := none, priority := 2,
    status := TodoStatus.Completed, created_at := 0,
    in_progress_at := none, completed_at := some 3, deleted_at := none }

/-- A `Uuid::parse_str` model that accepts no string. -/
def upNone : String → Option Uuid := fun _ => none

/-- A `Uuid::parse_str` model that accepts exactly the identifier text `u1`. -/
def upD : String → Option Uuid := fun s => if s = "u1" then some 1 else none

/-- A `str::parse::<usize>` model accepting the digit strings used below. -/
def np0 : String → Option Nat := fun s =>
  if s = "0" then some 0
  else if s = "1" then some 1
  else if s = "3" then some 3
  else none

/-- A `str::parse::<usize>` model that accepts no string. -/
def npNone : String → Option Nat := fun _ => none

/-- A `serde_json` stand-in for concrete evaluation: a record list is
written as its records followed by one terminator symbol.  It keeps the two
properties of the real codec that matter here: decoding inverts encoding,
and contents with bytes left over after a well-formed value are rejected
(serde_json's "trailing characters" error). -/
def encTag (todos : List Todo) : FileBytes := todos.map some ++ [none]

/-- Decoder matching `encTag`: consume records up to the terminator, then
require the end of the input. -/
def decTag : FileBytes → Option (List Todo)
  | [] => none
  | none :: rest => if rest.isEmpty then some [] else none
  | some t :: rest =>
      match decTag rest with
      | some todos => some (t :: todos)
      | none => none

/-! ### Lemmas about the map operations -/

lemma hmGet_hmInsert_self (m : TodoMap) (k : Uuid) (v : TodoData) :
    hmGet (hmInsert m k v) k = some v := by
  induction m with
  | nil => simp [hmInsert, hmGet]
  | cons p rest ih =>
    obtain ⟨k', v'⟩ := p
    by_cases h : k = k'
    · simp [hmInsert, hmGet, h]
    · simp [hmInsert, hmGet, h, ih]

lemma hmGet_hmInsert_ne (m : TodoMap) (k k' : Uuid) (v : TodoData)
    (h : k' ≠ k) : hmGet (hmInsert m k v) k' = hmGet m k' := by
  induction m with
  | nil => simp [hmInsert, hmGet, h]
  | cons p rest ih =>
    obtain ⟨k₀, v₀⟩ := p
    by_cases hk : k = k₀
    · subst hk
      simp [hmInsert, hmGet, h]
    · by_cases hk' : k' = k₀ <;> simp [hmInsert, hmGet, hk, hk', ih]

lemma hmGet_eq_none_iff (m : TodoMap) (k : Uuid) :
    hmGet m k = none ↔ k ∉ m.map Prod.fst := by
  induction m with
  | nil => simp [hmGet]
  | cons p rest ih =>
    obtain ⟨k₀, v₀⟩ := p
    by_cases h : k = k₀ <;> simp [hmGet, h, ih]

lemma hmGet_of_mem_nodup {m : TodoMap} (hnd : hmNodupKeys m)
    {p : Uuid × TodoData} (hp : p ∈ m) : hmGet m p.1 = some p.2 := by
  induction m with
  | nil => cases hp
  | cons q rest ih =>
    obtain ⟨k₀, v₀⟩ := q
    rcases List.mem_cons.mp hp with h | h
    · subst h
      simp [hmGet]
    · have hne : p.1 ≠ k₀ := by
        intro he
        have : k₀ ∈ rest.map Prod.fst :=
          he ▸ List.mem_map.mpr ⟨p, h, rfl⟩
        exact (List.nodup_cons.mp hnd).1 this
      simp [hmGet, hne]
      exact ih (List.nodup_cons.mp hnd).2 h

lemma hmRemove_sublist (m : TodoMap) (k : Uuid) : List.Sublist (hmRemove m k) m := by
  induction m with
  | nil => simp [hmRemove]
  | cons p rest ih =>
    obtain ⟨k₀, v₀⟩ := p
    by_cases h : k = k₀
    · simp only [hmRemove, if_pos h]
      exact List.sublist_cons_self (k₀, v₀) rest
    · simpa [hmRemove, h] using ih.cons₂ (k₀, v₀)

lemma hmNodupKeys_hmRemove {m : TodoMap} (hnd : hmNodupKeys m) (k : Uuid) :
    hmNodupKeys (hmRemove m k) :=
  List.Nodup.sublist ((hmRemove_sublist m k).map Prod.fst) hnd

lemma hmRemove_of_get_none {m : TodoMap} {k : Uuid}
    (h : hmGet m k = none) : hmRemove m k = m := by
  induction m with
  | nil => rfl
  | cons p rest ih =>
    obtain ⟨k₀, v₀⟩ := p
    by_cases hk : k = k₀
    · simp [hmGet, hk] at h
    · simp only [hmGet, if_neg hk] at h
      simp [hmRemove, hk, ih h]

lemma hmGet_hmRemove {m : TodoMap} (hnd : hmNodupKeys m) (k k' : Uuid) :
    hmGet (hmRemove m k) k' = if k' = k then none else hmGet m k' := by
  induction m with
  | nil => simp [hmRemove, hmGet]
  | cons p rest ih =>
    obtain ⟨k₀, v₀⟩ := p
    have hnd' := List.nodup_cons.mp hnd
    by_cases hk : k = k₀
    · subst hk
      by_cases hk' : k' = k
      · subst hk'
        simp [hmRemove, (hmGet_eq_none_iff rest k').mpr hnd'.1]
      · simp [hmRemove, hmGet, hk']
    · by_cases hk' : k' = k₀
      · subst hk'
        simp [hmRemove, hmGet, hk, fun h : k' = k => hk (h ▸ rfl)]
        intro h
        exact absurd h.symm hk
      · simp [hmRemove, hmGet, hk, hk', ih hnd'.2]

lemma hmInsert_append_of_not_mem {m : TodoMap} {k : Uuid} (v : TodoData)
    (h : k ∉ m.map Prod.fst) : hmInsert m k v = m ++ [(k, v)] := by
  induction m with
  | nil => rfl
  | cons p rest ih =>
    obtain ⟨k₀, v₀⟩ := p
    simp only [List.map_cons, List.mem_cons, not_or] at h
    simp [hmInsert, h.1, ih h.2]

lemma hmGet_perm {l l' : TodoMap} (h : l.Perm l') (hnd : hmNodupKeys l)
    (k : Uuid) : hmGet l k = hmGet l' k := by
  induction h with
  | nil => rfl
  | cons p h ih =>
    obtain ⟨k₀, v₀⟩ := p
    by_cases hk : k = k₀
    · simp [hmGet, hk]
    · simp only [hmGet, if_neg hk]
      exact ih (List.nodup_cons.mp hnd).2
  | swap x y l =>
    obtain ⟨kx, vx⟩ := x
    obtain ⟨ky, vy⟩ := y
    have hne : ky ≠ kx := by
      intro he
      simp [hmNodupKeys, he] at hnd
    by_cases hkx : k = kx <;> by_cases hky : k = ky <;>
      simp_all [hmGet]
  | trans h1 h2 ih1 ih2 =>
    rw [ih1 hnd, ih2 (((h1.map Prod.fst).nodup_iff).mp hnd)]

/-! ### Lemmas about the derived ordering -/

lemma sameKey_refl (a : Todo) : sameKey a a := ⟨rfl, rfl, rfl⟩

lemma todoLE_congr {a b x y : Todo} (hab : sameKey a b) (hxy : sameKey x y) :
    todoLE a x ↔ todoLE b y := by
  unfold todoLE
  rw [hab.2.1, hab.2.2, hxy.2.1, hxy.2.2]

lemma orderedInsert_forall2 {a b : Todo} (hab : sameKey a b) :
    ∀ {s t : List Todo}, List.Forall₂ sameKey s t →
      List.Forall₂ sameKey (List.orderedInsert todoLE a s)
        (List.orderedInsert todoLE b t) := by
  intro s t h
  induction h with
  | nil => exact List.Forall₂.cons hab List.Forall₂.nil
  | @cons x y s' t' hxy hrest ih =>
    by_cases hc : todoLE a x
    · have hc' : todoLE b y := (todoLE_congr hab hxy).mp hc
      simp only [List.orderedInsert, if_pos hc, if_pos hc']
      exact List.Forall₂.cons hab (List.Forall₂.cons hxy hrest)
    · have hc' : ¬ todoLE b y := fun hby => hc ((todoLE_congr hab hxy).mpr hby)
      simp only [List.orderedInsert, if_neg hc, if_neg hc']
      exact List.Forall₂.cons hxy ih

lemma insertionSort_forall2 :
    ∀ {l l' : List Todo}, List.Forall₂ sameKey l l' →
      List.Forall₂ sameKey (List.insertionSort todoLE l)
        (List.insertionSort todoLE l') := by
  intro l l' h
  induction h with
  | nil => exact List.Forall₂.nil
  | cons hxy _ ih =>
    simp only [List.insertionSort]
    exact orderedInsert_forall2 hxy ih

lemma forall2_sameKey_map_id {l l' : List Todo}
    (h : List.Forall₂ sameKey l l') : l.map Todo.id = l'.map Todo.id := by
  induction h with
  | nil => rfl
  | cons hxy _ ih => simp [hxy.1, ih]

lemma parse_todo_id_congr (np : String → Option Nat)
    (up : String → Option Uuid) {m m' : TodoMap}
    (h : List.Forall₂ sameKey (todoList m) (todoList m')) (s : String) :
    parse_todo_id np up m s = parse_todo_id np up m' s := by
  have hs := insertionSort_forall2 h
  have hlen : (ordered_todos m).length = (ordered_todos m').length :=
    hs.length_eq
  have hid : (ordered_todos m).map Todo.id = (ordered_todos m').map Todo.id :=
    forall2_sameKey_map_id hs
  unfold parse_todo_id
  cases hnp : np s with
  | none => rfl
  | some n =>
    dsimp only
    by_cases hlt : n < (ordered_todos m).length
    · rw [dif_pos hlt, dif_pos (hlen ▸ hlt)]
      have h1 : ((ordered_todos m).map Todo.id)[n]? =
          ((ordered_todos m').map Todo.id)[n]? := by rw [hid]
      rw [List.getElem?_map, List.getElem?_map,
        List.getElem?_eq_getElem hlt, List.getElem?_eq_getElem (hlen ▸ hlt)]
        at h1
      simp only [Option.map_some] at h1
      simp only [List.get_eq_getElem]
      exact congrArg some (Option.some.inj h1)
    · rw [dif_neg hlt, dif_neg (fun hc => hlt (hlen ▸ hc))]

lemma todoList_hmInsert_forall2 {m : TodoMap} {tid : Uuid} {d d' : TodoData}
    (hget : hmGet m tid = some d)
    (hp : d'.priority = d.priority) (hc : d'.created_at = d.created_at) :
    List.Forall₂ sameKey (todoList m) (todoList (hmInsert m tid d')) := by
  induction m with
  | nil => simp [hmGet] at hget
  | cons p rest ih =>
    obtain ⟨k₀, v₀⟩ := p
    by_cases h : tid = k₀
    · subst h
      rw [show hmGet ((tid, v₀) :: rest) tid = some v₀ by simp [hmGet]] at hget
      have hvd : v₀ = d := Option.some.inj hget
      rw [show hmInsert ((tid, v₀) :: rest) tid d' = (tid, d') :: rest by
        simp [hmInsert]]
      simp only [todoList, List.map_cons]
      exact List.Forall₂.cons
        ⟨rfl, by rw [hvd]; exact hp.symm, by rw [hvd]; exact hc.symm⟩
        (List.forall₂_same.mpr fun x _ => sameKey_refl x)
    · simp only [hmGet, if_neg h] at hget
      simp only [hmInsert, if_neg h, todoList, List.map_cons]
      exact List.Forall₂.cons (sameKey_refl _) (ih hget)

/-! ### Lemmas about the archival loop of sync -/

lemma archive_foldl_fst (ks : List Uuid) :
    ∀ (m : TodoMap) (ar : List Todo),
      (ks.foldl archiveStep (m, ar)).1 = ks.foldl hmRemove m := by
  induction ks with
  | nil => intro m ar; rfl
  | cons k ks ih =>
    intro m ar
    simp only [List.foldl_cons]
    cases hk : hmGet m k with
    | none =>
        rw [show archiveStep (m, ar) k = (m, ar) by simp [archiveStep, hk],
          ih, hmRemove_of_get_none hk]
    | some d =>
        rw [show archiveStep (m, ar) k =
            (hmRemove m k, ar ++ [{ id := k, data := d }]) by
          simp [archiveStep, hk], ih]

lemma hmGet_foldl_hmRemove (ks : List Uuid) :
    ∀ (m : TodoMap), hmNodupKeys m → ∀ k',
      hmGet (ks.foldl hmRemove m) k' =
        if k' ∈ ks then none else hmGet m k' := by
  induction ks with
  | nil => intro m _ k'; simp
  | cons k ks ih =>
    intro m hnd k'
    simp only [List.foldl_cons]
    rw [ih (hmRemove m k) (hmNodupKeys_hmRemove hnd k) k',
      hmGet_hmRemove hnd]
    by_cases h1 : k' ∈ ks <;> by_cases h2 : k' = k <;>
      simp [h1, h2]

lemma archive_foldl_snd (ks : List Uuid) :
    ∀ (m : TodoMap) (ar : List Todo), hmNodupKeys m →
      (∀ k ∈ ks, k ∈ m.map Prod.fst) → ks.Nodup →
      (ks.foldl archiveStep (m, ar)).2 =
        ar ++ ks.map fun k =>
          { id := k, data := (hmGet m k).getD dummyData : Todo } := by
  induction ks with
  | nil => intro m ar _ _ _; simp
  | cons k ks ih =>
    intro m ar hnd hmem hks
    obtain ⟨d, hd⟩ : ∃ d, hmGet m k = some d := by
      rcases h : hmGet m k with _ | d
      · exact absurd (hmem k (List.mem_cons_self k ks))
          ((hmGet_eq_none_iff m k).mp h)
      · exact ⟨d, rfl⟩
    have hknotin : k ∉ ks := (List.nodup_cons.mp hks).1
    simp only [List.foldl_cons]
    rw [show archiveStep (m, ar) k =
        (hmRemove m k, ar ++ [{ id := k, data := d }]) by
      simp [archiveStep, hd]]
    rw [ih (hmRemove m k) _ (hmNodupKeys_hmRemove hnd k) ?_
      (List.nodup_cons.mp hks).2]
    · have hmaps : (ks.map fun k' =>
          { id := k', data := (hmGet (hmRemove m k) k').getD dummyData : Todo }) =
          ks.map fun k' =>
            { id := k', data := (hmGet m k').getD dummyData : Todo } := by
        apply List.map_congr_left
        intro k' hk'
        have : k' ≠ k := fun he => hknotin (he ▸ hk')
        rw [hmGet_hmRemove hnd, if_neg this]
      rw [hmaps, List.map_cons, hd]
      simp
    · intro k' hk'
      have hne : k' ≠ k := fun he => hknotin (he ▸ hk')
      have : hmGet (hmRemove m k) k' = hmGet m k' := by
        rw [hmGet_hmRemove hnd, if_neg hne]
      rcases h : hmGet m k' with _ | d'
      · exact absurd (hmem k' (List.mem_cons_of_mem k hk'))
          ((hmGet_eq_none_iff m k').mp h)
      · by_contra hnotmem
        have := (hmGet_eq_none_iff (hmRemove m k) k').mpr hnotmem
        rw [hmGet_hmRemove hnd, if_neg hne, h] at this
        cases this

lemma mem_filter_keys_iff {m : TodoMap} (hnd : hmNodupKeys m) (k : Uuid) :
    k ∈ (m.filter finished).map Prod.fst ↔
      ∃ d, hmGet m k = some d ∧ finished (k, d) = true := by
  constructor
  · intro h
    obtain ⟨p, hpmem, hpk⟩ := List.mem_map.mp h
    have hpm : p ∈ m := List.mem_of_mem_filter hpmem
    have hget := hmGet_of_mem_nodup hnd hpm
    refine ⟨p.2, hpk ▸ hget, ?_⟩
    have := List.of_mem_filter hpmem
    subst hpk
    simpa [finished] using this
  · rintro ⟨d, hget, hfin⟩
    have hpm : (k, d) ∈ m := by
      induction m with
      | nil => simp [hmGet] at hget
      | cons p rest ih =>
        obtain ⟨k₀, v₀⟩ := p
        by_cases hk : k = k₀
        · subst hk
          have hvd : v₀ = d := by simpa [hmGet] using hget
          subst hvd
          exact List.mem_cons_self _ _
        · simp only [hmGet, if_neg hk] at hget
          exact List.mem_cons_of_mem _ (ih (List.nodup_cons.mp hnd).2 hget)
    exact List.mem_map.mpr ⟨(k, d), List.mem_filter.mpr ⟨hpm, hfin⟩, rfl⟩

lemma filter_keys_nodup {m : TodoMap} (hnd : hmNodupKeys m) :
    ((m.filter finished).map Prod.fst).Nodup :=
  List.Nodup.sublist ((List.filter_sublist m).map Prod.fst) hnd

lemma filter_keys_subset {m : TodoMap} :
    ∀ k ∈ (m.filter finished).map Prod.fst, k ∈ m.map Prod.fst :=
  fun _ hk => ((List.filter_sublist m).map Prod.fst).subset hk

lemma archived_map_eq {m : TodoMap} (hnd : hmNodupKeys m) :
    (((m.filter finished).map Prod.fst).map fun k =>
        { id := k, data := (hmGet m k).getD dummyData : Todo }) =
      todoList (m.filter finished) := by
  rw [List.map_map, todoList]
  apply List.map_congr_left
  intro p hp
  have hget := hmGet_of_mem_nodup hnd (List.mem_of_mem_filter hp)
  simp [Function.comp, hget]

/-! ### Lemmas about load -/

lemma load_foldl_eq :
    ∀ (l : List Todo) (acc : TodoMap), (l.map Todo.id).Nodup →
      (∀ t ∈ l, t.id ∉ acc.map Prod.fst) →
      l.foldl (fun m t => hmInsert m t.id t.data) acc =
        acc ++ l.map fun t => (t.id, t.data) := by
  intro l
  induction l with
  | nil => intro acc _ _; simp
  | cons t l ih =>
    intro acc hnd hdis
    simp only [List.foldl_cons]
    rw [hmInsert_append_of_not_mem t.data (hdis t (List.mem_cons_self t l))]
    rw [ih (acc ++ [(t.id, t.data)]) (List.nodup_cons.mp (by simpa using hnd)).2 ?_]
    · simp
    · intro t' ht'
      simp only [List.map_append, List.mem_append, not_or]
      have hne : t'.id ≠ t.id := by
        intro he
        have hni : t.id ∉ l.map Todo.id :=
          (List.nodup_cons.mp (by simpa using hnd)).1
        exact hni (he ▸ List.mem_map.mpr ⟨t', ht', rfl⟩)
      exact ⟨hdis t' (List.mem_cons_of_mem t ht'), by simpa using hne⟩

lemma load_todos_eq (l : List Todo) (h : (l.map Todo.id).Nodup) :
    load_todos l = l.map fun t => (t.id, t.data) := by
  simpa [load_todos] using load_foldl_eq l [] h (by simp)

/-! ### Claim theorems -/

/-- C1: the claim says that updating a todo with both the completed flag and
the deleted flag true in one call yields `status = Deleted` with BOTH
`completed_at` and `deleted_at` set.  Evaluating `update_todo` on a fresh
pending todo shows what the code actually does: `status = Deleted` and
`completed_at = some 7`, but `deleted_at` stays `none`, because the deleted
branch (`cli.rs:407`) assigns `completed_at` under its `deleted_at` guard.
The claim is right about the intent (compare `delete_todo`, `cli.rs:451-453`)
and the code is wrong. -/
theorem update_both_flags_leaves_deleted_at_unset :
    hmGet (update_todo np0 upNone mABC "0" none none none none
        (some true) (some true) 7).1 10 =
      some { title := "A", description := none, priority := 1,
             status := TodoStatus.Deleted, created_at := 0,
             in_progress_at := none, completed_at := some 7,
             deleted_at := none } := by decide

/-- C2: the claim says every timestamp field, once set, is never overwritten
by any later operation.  Evaluating `update_todo` with the deleted flag true
on a todo whose `completed_at` is already `some 3` shows the code overwrite
it with `some 7`: the deleted branch (`cli.rs:407`) assigns `completed_at`
whenever `deleted_at` is unset.  The claim matches the code's own sticky
pattern everywhere else (`cli.rs:390,398,422,435,451`); the code is wrong. -/
theorem update_deleted_flag_overwrites_completed_at :
    tD.completed_at = some 3 ∧
    hmGet (update_todo npNone upD [(1, tD)] "u1" none none none none none
        (some true) 7).1 1 =
      some { title := "D", description := none, priority := 2,
             status := TodoStatus.Deleted, created_at := 0,
             in_progress_at := none, completed_at := some 7,
             deleted_at := none } := by decide

/-- C4: the derived ordering used for display and positional references sorts
the todos primarily by priority ascending and, for equal priority, by
`created_at` ascending (`todoLE` is exactly that relation), it is a
permutation of the collection; and for A(priority 1), B(priority 1, created
after A), C(priority 3) in scrambled map order, the derived order is
[A, B, C]. -/
theorem ordered_todos_sorts_by_priority_then_created_at :
    (∀ m : TodoMap,
      (ordered_todos m).Sorted todoLE ∧
        (ordered_todos m).Perm (todoList m)) ∧
    ordered_todos mABC = [tA, tB, tC] :=
  ⟨fun m => ⟨List.sorted_insertionSort todoLE (todoList m),
    List.perm_insertionSort todoLE (todoList m)⟩, by decide⟩

/-- C5: reference resolution tries the positional index first: a reference
that parses as a number `n < ` the number of active todos resolves to the
identifier at position `n` of the derived ordering; otherwise (not a number,
or out of range) it falls back to the identifier parser `up`; and when that
also fails the reference is invalid (`none`). -/
theorem parse_todo_id_position_first_then_identifier
    (np : String → Option Nat) (up : String → Option Uuid) (m : TodoMap)
    (s : String) :
    (∀ n (h : n < (ordered_todos m).length), np s = some n →
        parse_todo_id np up m s = some ((ordered_todos m).get ⟨n, h⟩).id) ∧
    (∀ n, np s = some n → (ordered_todos m).length ≤ n →
        parse_todo_id np up m s = up s) ∧
    (np s = none → parse_todo_id np up m s = up s) ∧
    ((np s = none ∨ ∃ n, np s = some n ∧ (ordered_todos m).length ≤ n) →
        up s = none → parse_todo_id np up m s = none) := by
  refine ⟨?_, ?_, ?_, ?_⟩
  · intro n h hn
    simp only [parse_todo_id, hn]
    exact dif_pos h
  · intro n hn hge
    simp only [parse_todo_id, hn]
    exact dif_neg (Nat.not_lt.mpr hge)
  · intro hn
    simp only [parse_todo_id, hn]
  · rintro (hn | ⟨n, hn, hge⟩) hup
    · simp only [parse_todo_id, hn, hup]
    · simp only [parse_todo_id, hn]
      rw [dif_neg (Nat.not_lt.mpr hge), hup]

/-- Witness for C5 at concrete inputs: in the three-element collection,
reference "0" resolves positionally to A's identifier 10; the in-range check
failing on "3" falls back to the identifier parser; an unparseable "x" with a
failing identifier parser is invalid. -/
theorem parse_todo_id_position_first_then_identifier_witness :
    parse_todo_id np0 upNone mABC "0" = some 10 ∧
    parse_todo_id np0 upNone mABC "3" = upNone "3" ∧
    parse_todo_id npNone upNone mABC "x" = none := by
  refine ⟨?_, ?_, ?_⟩
  · exact ((parse_todo_id_position_first_then_identifier np0 upNone mABC
      "0").1 0 (by decide) (by decide)).trans (by decide)
  · exact (parse_todo_id_position_first_then_identifier np0 upNone mABC
      "3").2.1 3 (by decide) (by decide)
  · exact (parse_todo_id_position_first_then_identifier npNone upNone mABC
      "x").2.2.2 (Or.inl (by decide)) (by decide)

/-- C8: a todo created by `add_todo` has `created_at` set to the creation
time, status `InProgress` when the immediate-start flag is given and
`Pending` otherwise, `in_progress_at` set exactly when the flag is given,
and `completed_at` and `deleted_at` unset. -/
theorem add_todo_initial_fields (m : TodoMap) (id : Uuid) (title : String)
    (description : Option String) (priority : Nat) (in_progress : Bool)
    (now : Nat) :
    hmGet (add_todo m id title description priority in_progress now) id =
      some { title := title
             description := description
             priority := priority
             status := if in_progress then TodoStatus.InProgress
               else TodoStatus.Pending
             created_at := now
             in_progress_at := if in_progress then some now else none
             completed_at := none
             deleted_at := none } :=
  hmGet_hmInsert_self m id _

/-- C3: calling `complete` twice through the same resolving reference sets
`completed_at` exactly once: the first call sets `completed_at` and
`status = Completed` (and prints nothing), the second call leaves the
collection exactly as the first left it and reports "already completed".
The reference may be positional or an identifier: the first call only
changes fields outside the sort key, so the derived ordering's identifiers
are unchanged and the reference resolves to the same todo again. -/
theorem complete_twice_sets_completed_at_once
    (np : String → Option Nat) (up : String → Option Uuid) (m : TodoMap)
    (ref : String) (tid : Uuid) (todo : TodoData) (now1 now2 : Nat)
    (h1 : parse_todo_id np up m ref = some tid)
    (h2 : hmGet m tid = some todo)
    (h3 : todo.completed_at = none) :
    complete_todo np up m ref now1 =
      (hmInsert m tid { todo with completed_at := some now1,
                                  status := TodoStatus.Completed }, []) ∧
    complete_todo np up
        (hmInsert m tid { todo with completed_at := some now1,
                                    status := TodoStatus.Completed }) ref now2 =
      (hmInsert m tid { todo with completed_at := some now1,
                                  status := TodoStatus.Completed },
       ["Todo is already completed"]) := by
  constructor
  · simp [complete_todo, h1, h2, h3]
  · have hforall := @todoList_hmInsert_forall2 m tid todo
      { todo with completed_at := some now1, status := TodoStatus.Completed }
      h2 rfl rfl
    have hparse : parse_todo_id np up
        (hmInsert m tid { todo with completed_at := some now1,
                                    status := TodoStatus.Completed }) ref =
        some tid :=
      (parse_todo_id_congr np up hforall ref).symm.trans h1
    simp [complete_todo, hparse, hmGet_hmInsert_self]

/-- Witness for C3: in the three-element collection, completing the todo at
position "1" (todo B, identifier 11) at time 9 and then again at time 10
mutates the map once and reports "already completed" the second time. -/
theorem complete_twice_sets_completed_at_once_witness :
    complete_todo np0 upNone mABC "1" 9 =
      (hmInsert mABC 11 { tB.data with completed_at := some 9,
                                       status := TodoStatus.Completed }, []) ∧
    complete_todo np0 upNone
        (hmInsert mABC 11 { tB.data with completed_at := some 9,
                                         status := TodoStatus.Completed })
        "1" 10 =
      (hmInsert mABC 11 { tB.data with completed_at := some 9,
                                       status := TodoStatus.Completed },
       ["Todo is already completed"]) :=
  complete_twice_sets_completed_at_once np0 upNone mABC "1" 11 tB.data 9 10
    (by decide) (by decide) rfl

/-- C7, counterexample: the claim says every mutating operation on an
unresolvable reference reports "not found".  For the unparseable reference
"x" (no positional parse, no identifier parse) `update_todo` and
`complete_todo` mutate nothing but also print nothing: the failed
`parse_todo_id` is swallowed silently by the `if let Ok` (`cli.rs:376`),
so no "not found" report is made. -/
theorem unresolvable_update_prints_nothing :
    parse_todo_id npNone upNone mABC "x" = none ∧
    update_todo npNone upNone mABC "x" none none none none none none 0 =
      (mABC, []) ∧
    complete_todo npNone upNone mABC "x" 0 = (mABC, []) ∧
    ¬ "Todo not found" ∈
      (update_todo npNone upNone mABC "x" none none none none none none 0).2 := by
  decide

/-- C7, amended: a mutating operation invoked with a reference that does not
resolve performs no mutation and returns normally; it reports "not found"
exactly when the reference parses to an identifier that is absent from the
collection, and is silent (no output at all) when the reference itself fails
to parse as a position or identifier. -/
theorem unresolvable_reference_no_mutation
    (np : String → Option Nat) (up : String → Option Uuid) (m : TodoMap)
    (ref : String) (title description : Option String)
    (priority : Option Nat) (in_progress completed deleted : Option Bool)
    (now : Nat) :
    (parse_todo_id np up m ref = none →
      update_todo np up m ref title description priority in_progress
          completed deleted now = (m, []) ∧
      start_todo np up m ref now = (m, []) ∧
      complete_todo np up m ref now = (m, []) ∧
      delete_todo np up m ref now = (m, [])) ∧
    (∀ tid, parse_todo_id np up m ref = some tid → hmGet m tid = none →
      update_todo np up m ref title description priority in_progress
          completed deleted now = (m, ["Todo not found"]) ∧
      start_todo np up m ref now = (m, ["Todo not found"]) ∧
      complete_todo np up m ref now = (m, ["Todo not found"]) ∧
      delete_todo np up m ref now = (m, ["Todo not found"])) := by
  constructor
  · intro h
    exact ⟨by simp [update_todo, h], by simp [start_todo, h],
      by simp [complete_todo, h], by simp [delete_todo, h]⟩
  · intro tid hs hg
    exact ⟨by simp [update_todo, hs, hg], by simp [start_todo, hs, hg],
      by simp [complete_todo, hs, hg], by simp [delete_todo, hs, hg]⟩

/-- Witness for C7's amended theorem: an unparseable reference "zzz" leaves
the map as is with no output; the well-formed identifier "u1" maps to key 1,
absent from the three-element collection, so delete reports "Todo not
found". -/
theorem unresolvable_reference_no_mutation_witness :
    update_todo npNone upNone mABC "zzz" none none none none none none 4 =
      (mABC, []) ∧
    delete_todo npNone upD mABC "u1" 4 = (mABC, ["Todo not found"]) :=
  ⟨((unresolvable_reference_no_mutation npNone upNone mABC "zzz" none none
      none none none none 4).1 (by decide)).1,
   ((unresolvable_reference_no_mutation npNone upD mABC "u1" none none
      none none none none 4).2 1 (by decide) (by decide)).2.2.2⟩

/-- Record-level half of the save/load round trip, true of the code once the
file has deserialised successfully: rebuilding the map from the saved records
reproduces every lookup, for any iteration order of the serialisation.  The
round trip itself fails at the file level (see C9 below). -/
lemma load_of_saved_perm_agrees (m : TodoMap) (l : List Todo)
    (hnd : hmNodupKeys m) (hp : l.Perm (save_todos m)) :
    ∀ k, hmGet (load_todos l) k = hmGet m k := by
  have hsave : ((save_todos m).map fun t => (t.id, t.data)) = m := by
    simp [save_todos, todoList, List.map_map, Function.comp_def]
  have hpairs : (l.map fun t => (t.id, t.data)).Perm m :=
    hsave ▸ (hp.map fun t => (t.id, t.data))
  have hnd' : hmNodupKeys (l.map fun t => (t.id, t.data)) :=
    ((hpairs.map Prod.fst).nodup_iff).mpr hnd
  have hids : (l.map Todo.id).Nodup := by
    have hnd2 : ((l.map fun t => (t.id, t.data)).map Prod.fst).Nodup := hnd'
    simpa [List.map_map, Function.comp] using hnd2
  intro k
  rw [load_todos_eq l hids]
  exact hmGet_perm hpairs hnd' k

/-- The mechanism behind C9, for any encoder/decoder: when the new
serialisation is shorter than the file's previous contents, the written file
is not the clean serialisation (the stale tail survives the truncate-less
write), and as soon as the decoder rejects the polluted contents the next
load is a fatal error. -/
lemma load_todos_file_fails_of_stale_tail
    (enc : List Todo → FileBytes) (dec : FileBytes → Option (List Todo))
    (old : FileBytes) (m : TodoMap)
    (hshort : (enc (save_todos m)).length < old.length)
    (hdec : dec (save_todos_file enc old m) = none) :
    save_todos_file enc old m ≠ enc (save_todos m) ∧
    load_todos_file dec (save_todos_file enc old m) = none := by
  have hlen : (save_todos_file enc old m).length = old.length := by
    rw [save_todos_file, List.length_append, List.length_drop]
    omega
  constructor
  · intro he
    have hle := congrArg List.length he
    rw [hlen] at hle
    omega
  · have hne : save_todos_file enc old m ≠ [] := by
      intro h
      rw [h] at hlen
      simp at hlen
      omega
    rw [load_todos_file, if_neg (by simpa [List.isEmpty_iff] using hne), hdec]

/-- C9: the claim says saving the collection and then loading the saved data
yields an equivalent collection.  At the file level this is false:
`save_todos` opens `todos.json` with create/read/write but no truncate
(`cli.rs:317-322`), writing from offset 0 over the old contents, so a
serialisation shorter than the previous one leaves the previous contents'
stale trailing bytes, and the next `load_todos` dies in
`serde_json::from_reader` on the trailing garbage instead of producing any
collection.  Concretely: the file holds the serialised one-todo collection
(key 1, todo D); the now-empty collection (say, right after `sync` archived
D) is saved over it; the write leaves a stale terminator behind, and loading
the resulting file is a fatal error.  The spec's own Persistence Adapter
contract ("fully overwriting prior contents", §4.4) shows the intent; the
missing truncate is the slip. -/
theorem save_without_truncate_breaks_round_trip :
    decTag (encTag (save_todos [(1, tD)])) = some (save_todos [(1, tD)]) ∧
    (encTag (save_todos ([] : TodoMap))).length <
      (encTag (save_todos [(1, tD)])).length ∧
    save_todos_file encTag (encTag (save_todos [(1, tD)])) ([] : TodoMap) ≠
      encTag (save_todos ([] : TodoMap)) ∧
    load_todos_file decTag
      (save_todos_file encTag (encTag (save_todos [(1, tD)])) ([] : TodoMap)) =
      none := by
  decide

/-- C6: `sync` removes from the active collection exactly the todos whose
`completed_at` or `deleted_at` is set (collecting them, unchanged, into the
archive batch) and leaves every other todo's entry untouched; when no todo
has either timestamp set it reports "nothing to archive", leaves the
collection unchanged, and performs no archive-file read or write
(`archiveWritten = false` records the early return at `cli.rs:494-497`,
before any file operation). -/
theorem sync_removes_exactly_finished (m : TodoMap) :
    (hmNodupKeys m →
      (∀ k, hmGet (sync m).map k =
        match hmGet m k with
        | some d => if d.completed_at.isSome || d.deleted_at.isSome then none
            else some d
        | none => none) ∧
      (sync m).archived = todoList (m.filter finished)) ∧
    ((∀ p ∈ m, p.2.completed_at = none ∧ p.2.deleted_at = none) →
      sync m = { map := m, archived := [],
                 msgs := ["No completed or deleted todos to archive."],
                 archiveWritten := false }) := by
  constructor
  · intro hnd
    have hmap : (sync m).map =
        ((m.filter finished).map Prod.fst).foldl hmRemove m := by
      unfold sync
      dsimp only
      split <;> dsimp only <;> rw [archive_foldl_fst]
    constructor
    · intro k
      rw [hmap, hmGet_foldl_hmRemove _ m hnd k]
      by_cases hmem : k ∈ (m.filter finished).map Prod.fst
      · rw [if_pos hmem]
        obtain ⟨d, hget, hfin⟩ := (mem_filter_keys_iff hnd k).mp hmem
        rw [hget]
        have : (d.completed_at.isSome || d.deleted_at.isSome) = true := hfin
        simp [this]
      · rw [if_neg hmem]
        cases hget : hmGet m k with
        | none => rfl
        | some d =>
          have hnf : ¬ finished (k, d) = true := fun hf =>
            hmem ((mem_filter_keys_iff hnd k).mpr ⟨d, hget, hf⟩)
          have : (d.completed_at.isSome || d.deleted_at.isSome) = false := by
            simpa [finished] using hnf
          simp [this]
    · have harch : (sync m).archived =
          (((m.filter finished).map Prod.fst).foldl archiveStep (m, [])).2 := by
        unfold sync
        dsimp only
        split <;> rename_i hemp
        · dsimp only
          exact (List.isEmpty_iff.mp hemp).symm
        · rfl
      rw [harch,
        archive_foldl_snd _ m [] hnd filter_keys_subset (filter_keys_nodup hnd)]
      rw [List.nil_append]
      exact archived_map_eq hnd
  · intro hno
    have hfil : m.filter finished = [] := by
      rw [List.filter_eq_nil_iff]
      intro p hp
      have := hno p hp
      simp [finished, this.1, this.2]
    unfold sync
    rw [hfil]
    rfl

/-- Witness for C6: in a map with one completed and one pending todo, `sync`
removes the completed one's entry, keeps the pending one, and archives the
completed record; in the all-pending collection it reports "nothing to
archive", changes nothing and touches no archive file. -/
theorem sync_removes_exactly_finished_witness :
    hmGet (sync [(1, tD), (2, tA.data)]).map 1 = none ∧
    hmGet (sync [(1, tD), (2, tA.data)]).map 2 = some tA.data ∧
    (sync [(1, tD), (2, tA.data)]).archived =
      todoList ([(1, tD), (2, tA.data)].filter finished) ∧
    sync mABC = { map := mABC, archived := [],
                  msgs := ["No completed or deleted todos to archive."],
                  archiveWritten := false } := by
  refine ⟨?_, ?_, ?_, ?_⟩
  · exact (((sync_removes_exactly_finished [(1, tD), (2, tA.data)]).1
      (by unfold hmNodupKeys; decide)).1 1).trans (by decide)
  · exact (((sync_removes_exactly_finished [(1, tD), (2, tA.data)]).1
      (by unfold hmNodupKeys; decide)).1 2).trans (by decide)
  · exact ((sync_removes_exactly_finished [(1, tD), (2, tA.data)]).1
      (by unfold hmNodupKeys; decide)).2
  · exact (sync_removes_exactly_finished mABC).2 (by decide)

set_option maxHeartbeats 2000000 in
/-- C10: `update` can never clear a todo's description: with no description
argument the stored description is unchanged, and with a description
argument the value is stored as `some`; hence a non-null description stays
non-null across the call. -/
theorem update_never_clears_description
    (np : String → Option Nat) (up : String → Option Uuid) (m : TodoMap)
    (ref : String) (tid : Uuid) (todo : TodoData)
    (title description : Option String) (priority : Option Nat)
    (in_progress completed deleted : Option Bool) (now : Nat)
    (h1 : parse_todo_id np up m ref = some tid)
    (h2 : hmGet m tid = some todo) :
    ∃ todo', hmGet (update_todo np up m ref title description priority
        in_progress completed deleted now).1 tid = some todo' ∧
      todo'.description = (match description with
        | some d => some d
        | none => todo.description) ∧
      (todo.description.isSome → todo'.description.isSome) := by
  rcases title with _ | t <;> rcases description with _ | d <;>
    rcases priority with _ | p <;> rcases in_progress with _ | b1 <;>
    rcases completed with _ | b2 <;> rcases deleted with _ | b3 <;>
    simp only [update_todo, h1, h2] <;>
    refine ⟨_, hmGet_hmInsert_self m tid _, ?_, ?_⟩ <;>
    (try split_ifs) <;> simp

/-- Witness for C10: updating the completed todo `D` with a description
argument stores it as present; the hypothesis discharge shows the reference
"u1" resolving to key 1 and the lookup finding `D`. -/
theorem update_never_clears_description_witness :
    ∃ todo', hmGet (update_todo npNone upD [(1, tD)] "u1" none (some "x")
        none none none none 9).1 1 = some todo' ∧
      todo'.description = (match (some "x" : Option String) with
        | some d => some d
        | none => tD.description) ∧
      (tD.description.isSome → todo'.description.isSome) :=
  update_never_clears_description npNone upD [(1, tD)] "u1" 1 tD
    none (some "x") none none none none 9 (by decide) (by decide)

end Toto
